import Mathlib

/-!
Shallow embedding of the Carla ring buffer (CarlaRingBuffer.hpp) and proofs
about its transactional commit/rollback protocol, wrap-around copy logic and
cursor invariants.

The C++ template class `CarlaRingBuffer<BufferStruct>` operates through a
pointer `fBuffer` to a `HeapBuffer`-like struct; we model that pointer as an
`Option HeapBuffer` (`none` = unbound engine) and every engine operation as a
pure state transformer returning its C return value together with the updated
bound state.  Byte storage is a `List Nat` (one entry per byte); `memcpy`
segments become slice operations on such lists.  `std::size_t` arithmetic is
modelled by `Nat`; the expressions `wrap + head - tail` and
`wrap + tail - wrtn` are written exactly as in the source and never underflow
under the cursor invariant `head, tail, wrtn < size`.
-/

namespace Carla

/-- Model of `std::memcpy(l + s, d, d.length)`: overwrite the slice of `l`
starting at index `s` with the bytes of `d`. -/
def writeBytes (l : List Nat) (s : Nat) (d : List Nat) : List Nat :=
  l.take s ++ d ++ l.drop (s + d.length)

/-- Model of `std::memcpy(dest, l + s, n)`: the `n` bytes of `l` starting at
index `s`. -/
def readBytes (l : List Nat) (s n : Nat) : List Nat :=
  (l.drop s).take n

/-- Little-endian byte encoding of a natural number into `w` bytes. -/
def natToBytesLE : Nat → Nat → List Nat
  | 0, _ => []
  | w + 1, n => n % 256 :: natToBytesLE w (n / 256)

/-- Little-endian byte decoding. -/
def bytesToNatLE : List Nat → Nat
  | [] => 0
  | b :: bs => b + 256 * bytesToNatLE bs

/-- Reinterpret a `w`-byte unsigned value as a two's-complement signed value,
as the C++ code does when it `memcpy`s storage bytes into an `intN_t`. -/
def toSigned (w : Nat) (n : Nat) : Int :=
  if n < 2 ^ (8 * w - 1) then (n : Int) else (n : Int) - 2 ^ (8 * w)

/-- Two's-complement `w`-byte representation of a signed value, as produced by
taking the object representation of an `intN_t` argument. -/
def intToBytesLE (w : Nat) (v : Int) : List Nat :=
  natToBytesLE w (v % (2 ^ (8 * w) : Nat)).toNat

/-- The `HeapBuffer` struct of CarlaRingBuffer.hpp: capacity `size`, the three
cursors `head`, `tail`, `wrtn`, the failed-write flag `invalidateCommit` and
the byte storage `buf`. -/
structure HeapBuffer where
  size : Nat
  head : Nat
  tail : Nat
  wrtn : Nat
  invalidateCommit : Bool
  buf : List Nat
  deriving DecidableEq, Repr

/-- `CarlaRingBuffer::clear()` on a bound buffer: zero the cursors, clear the
flag and zero-fill `size` bytes of storage (`carla_zeroBytes`). -/
def clear (b : HeapBuffer) : HeapBuffer :=
  { b with head := 0, tail := 0, wrtn := 0, invalidateCommit := false,
           buf := List.replicate b.size 0 }

/-- `CarlaRingBuffer::commitWrite()`.  `none` models an unbound engine
(`fBuffer == nullptr`), for which the safe-assert returns `false`. -/
def commitWrite : Option HeapBuffer → Bool × Option HeapBuffer
  | none => (false, none)
  | some b =>
    if b.invalidateCommit then
      (false, some { b with wrtn := b.head, invalidateCommit := false })
    else if b.head = b.wrtn then
      (false, some b)
    else
      (true, some { b with head := b.wrtn })

/-- `CarlaRingBuffer::isDataAvailableForReading()`:  the safe-assert on
`fBuffer != nullptr` returns `false` when unbound. -/
def isDataAvailableForReading : Option HeapBuffer → Bool
  | none => false
  | some b => !(b.head == b.tail)

/-- `CarlaRingBuffer::isEmpty()`: the safe-assert returns `false` when
unbound. -/
def isEmpty : Option HeapBuffer → Bool
  | none => false
  | some b => b.head == b.tail

/-- `CarlaRingBuffer::tryRead(buf, size)`.  The destination pointer is
modelled by the flag `bufNonNull`; on success the bytes that the two `memcpy`
calls deposit in the destination are returned as `some bytes`. -/
def tryRead (fb : Option HeapBuffer) (bufNonNull : Bool) (size : Nat) :
    Option (List Nat) × Option HeapBuffer :=
  match fb with
  | none => (none, none)
  | some b =>
    if bufNonNull = false then (none, some b)
    else if size = 0 then (none, some b)
    else if ¬ size < b.size then (none, some b)
    else if b.head = b.tail then (none, some b)
    else
      let head := b.head
      let tail := b.tail
      let wrap : Nat := if head > tail then 0 else b.size
      if size > wrap + head - tail then (none, some b)
      else
        let readto := tail + size
        if readto > b.size then
          let readto' := readto - b.size
          let firstpart := b.size - tail
          (some (readBytes b.buf tail firstpart ++ readBytes b.buf 0 readto'),
           some { b with tail := readto' })
        else
          (some (readBytes b.buf tail size),
           some { b with tail := if readto = b.size then 0 else readto })

/-- `CarlaRingBuffer::tryWrite(buf, size)`.  The source pointer together with
its `size` bytes is modelled by `Option (List Nat)`: `none` is a null source
pointer, `some d` is a valid pointer to the byte sequence `d` (so the C `size`
argument is `d.length`). -/
def tryWrite (fb : Option HeapBuffer) (data : Option (List Nat)) :
    Bool × Option HeapBuffer :=
  match fb with
  | none => (false, none)
  | some b =>
    match data with
    | none => (false, some b)
    | some d =>
      if d.length = 0 then (false, some b)
      else if ¬ d.length < b.size then (false, some b)
      else
        let tail := b.tail
        let wrtn := b.wrtn
        let wrap : Nat := if tail > wrtn then 0 else b.size
        if d.length ≥ wrap + tail - wrtn then
          (false, some { b with invalidateCommit := true })
        else
          let writeto := wrtn + d.length
          if writeto > b.size then
            let writeto' := writeto - b.size
            let firstpart := b.size - wrtn
            (true, some { b with
              buf := writeBytes (writeBytes b.buf wrtn (d.take firstpart)) 0
                       (d.drop firstpart),
              wrtn := writeto' })
          else
            (true, some { b with
              buf := writeBytes b.buf wrtn d,
              wrtn := if writeto = b.size then 0 else writeto })

/-! Typed scalar helpers.  Each one delegates to `tryRead`/`tryWrite` with
`sizeof` of the C type; scalar values travel as their little-endian object
representation. -/

/-- `readBool()`: reads one byte, defaulting to `false` on failure. -/
def readBool (fb : Option HeapBuffer) : Bool × Option HeapBuffer :=
  match tryRead fb true 1 with
  | (some bytes, fb') => (!(bytesToNatLE bytes == 0), fb')
  | (none, fb') => (false, fb')

/-- `readByte()`: reads one byte as `int8_t`, defaulting to `0`. -/
def readByte (fb : Option HeapBuffer) : Int × Option HeapBuffer :=
  match tryRead fb true 1 with
  | (some bytes, fb') => (toSigned 1 (bytesToNatLE bytes), fb')
  | (none, fb') => (0, fb')

/-- `readUByte()`: reads an `int8_t` and yields it as unsigned only when
`0 ≤ ub ∧ ub ≤ INT_LEAST8_MAX`; otherwise `0`. -/
def readUByte (fb : Option HeapBuffer) : Nat × Option HeapBuffer :=
  match tryRead fb true 1 with
  | (some bytes, fb') =>
    let ub := toSigned 1 (bytesToNatLE bytes)
    if 0 ≤ ub ∧ ub ≤ 127 then (ub.toNat, fb') else (0, fb')
  | (none, fb') => (0, fb')

/-- `readShort()`: reads an `int16_t`, defaulting to `0`. -/
def readShort (fb : Option HeapBuffer) : Int × Option HeapBuffer :=
  match tryRead fb true 2 with
  | (some bytes, fb') => (toSigned 2 (bytesToNatLE bytes), fb')
  | (none, fb') => (0, fb')

/-- `readUShort()`: reads an `int16_t` and validates
`0 ≤ us ∧ us ≤ INT_LEAST16_MAX` before reinterpreting; otherwise `0`. -/
def readUShort (fb : Option HeapBuffer) : Nat × Option HeapBuffer :=
  match tryRead fb true 2 with
  | (some bytes, fb') =>
    let us := toSigned 2 (bytesToNatLE bytes)
    if 0 ≤ us ∧ us ≤ 32767 then (us.toNat, fb') else (0, fb')
  | (none, fb') => (0, fb')

/-- `readInt()`: reads an `int32_t`, defaulting to `0`. -/
def readInt (fb : Option HeapBuffer) : Int × Option HeapBuffer :=
  match tryRead fb true 4 with
  | (some bytes, fb') => (toSigned 4 (bytesToNatLE bytes), fb')
  | (none, fb') => (0, fb')

/-- `readUInt()`: reads an `int32_t` and validates
`0 ≤ ui ∧ ui ≤ INT_LEAST32_MAX` before reinterpreting; otherwise `0`. -/
def readUInt (fb : Option HeapBuffer) : Nat × Option HeapBuffer :=
  match tryRead fb true 4 with
  | (some bytes, fb') =>
    let ui := toSigned 4 (bytesToNatLE bytes)
    if 0 ≤ ui ∧ ui ≤ 2147483647 then (ui.toNat, fb') else (0, fb')
  | (none, fb') => (0, fb')

/-- `readLong()`: reads an `int64_t`, defaulting to `0`. -/
def readLong (fb : Option HeapBuffer) : Int × Option HeapBuffer :=
  match tryRead fb true 8 with
  | (some bytes, fb') => (toSigned 8 (bytesToNatLE bytes), fb')
  | (none, fb') => (0, fb')

/-- `readULong()`: reads an `int64_t` and validates
`0 ≤ ul ∧ ul ≤ INT_LEAST64_MAX` before reinterpreting; otherwise `0`. -/
def readULong (fb : Option HeapBuffer) : Nat × Option HeapBuffer :=
  match tryRead fb true 8 with
  | (some bytes, fb') =>
    let ul := toSigned 8 (bytesToNatLE bytes)
    if 0 ≤ ul ∧ ul ≤ 9223372036854775807 then (ul.toNat, fb') else (0, fb')
  | (none, fb') => (0, fb')

/-- `readFloat()`: the 4 storage bytes are returned as the IEEE-754 bit
pattern of the float (the payload interpretation is outside the engine); a
failed read leaves the local `0.0f`, whose bit pattern is `0`. -/
def readFloat (fb : Option HeapBuffer) : Nat × Option HeapBuffer :=
  match tryRead fb true 4 with
  | (some bytes, fb') => (bytesToNatLE bytes, fb')
  | (none, fb') => (0, fb')

/-- `readDouble()`: as `readFloat` with 8 bytes. -/
def readDouble (fb : Option HeapBuffer) : Nat × Option HeapBuffer :=
  match tryRead fb true 8 with
  | (some bytes, fb') => (bytesToNatLE bytes, fb')
  | (none, fb') => (0, fb')

/-- `readCustomData(data, size)`: on failure the destination is zero-filled
(`carla_zeroBytes`). -/
def readCustomData (fb : Option HeapBuffer) (size : Nat) :
    List Nat × Option HeapBuffer :=
  match tryRead fb true size with
  | (some bytes, fb') => (bytes, fb')
  | (none, fb') => (List.replicate size 0, fb')

/-- `writeBool(value)`. -/
def writeBool (fb : Option HeapBuffer) (value : Bool) : Bool × Option HeapBuffer :=
  tryWrite fb (some [if value then 1 else 0])

/-- `writeByte(value)`. -/
def writeByte (fb : Option HeapBuffer) (value : Int) : Bool × Option HeapBuffer :=
  tryWrite fb (some (intToBytesLE 1 value))

/-- `writeShort(value)`. -/
def writeShort (fb : Option HeapBuffer) (value : Int) : Bool × Option HeapBuffer :=
  tryWrite fb (some (intToBytesLE 2 value))

/-- `writeInt(value)`. -/
def writeInt (fb : Option HeapBuffer) (value : Int) : Bool × Option HeapBuffer :=
  tryWrite fb (some (intToBytesLE 4 value))

/-- `writeLong(value)`. -/
def writeLong (fb : Option HeapBuffer) (value : Int) : Bool × Option HeapBuffer :=
  tryWrite fb (some (intToBytesLE 8 value))

/-- `writeFloat(value)`: the float travels as its 4-byte IEEE-754 bit
pattern. -/
def writeFloat (fb : Option HeapBuffer) (pattern : Nat) : Bool × Option HeapBuffer :=
  tryWrite fb (some (natToBytesLE 4 (pattern % 2 ^ 32)))

/-- `writeDouble(value)`: 8-byte bit pattern. -/
def writeDouble (fb : Option HeapBuffer) (pattern : Nat) : Bool × Option HeapBuffer :=
  tryWrite fb (some (natToBytesLE 8 (pattern % 2 ^ 64)))

/-- `writeCustomData(value, size)`. -/
def writeCustomData (fb : Option HeapBuffer) (data : Option (List Nat)) :
    Bool × Option HeapBuffer :=
  tryWrite fb data

/-- Modelled from the spec: `carla_nextPowerOf2` lives in CarlaMathUtils.hpp,
which is not part of the sources; the spec describes it as rounding up to
"the next power of two ≥ requested size".  Fuel-based so that it reduces by
`decide`: the accumulator doubles from 1 until it reaches `n`, and `n` steps
always suffice. -/
def nextPow2Go (n : Nat) : Nat → Nat → Nat
  | 0, p => p
  | fuel + 1, p => if n ≤ p then p else nextPow2Go n fuel (2 * p)

/-- Modelled from the spec: the power-of-two rounding used by
`CarlaHeapRingBuffer::createBuffer`. -/
def carla_nextPowerOf2 (n : Nat) : Nat :=
  nextPow2Go n n 1

/-- `clear()` at engine level: the safe-assert makes it a no-op when the
engine is unbound. -/
def clearOp : Option HeapBuffer → Option HeapBuffer
  | none => none
  | some b => some (clear b)

/-- Free space as `tryWrite` computes it: `wrap + tail - wrtn` with
`wrap = (tail > wrtn) ? 0 : size`. -/
def freeSpace (b : HeapBuffer) : Nat :=
  (if b.tail > b.wrtn then 0 else b.size) + b.tail - b.wrtn

/-- Available committed data as `tryRead` computes it: `wrap + head - tail`
with `wrap = (head > tail) ? 0 : size`. -/
def availData (b : HeapBuffer) : Nat :=
  (if b.head > b.tail then 0 else b.size) + b.head - b.tail

/-- The cursor invariant of the spec: `0 ≤ head, tail, wrtn < capacity`
(lower bounds are automatic over `Nat`). -/
def CursorInv (b : HeapBuffer) : Prop :=
  b.head < b.size ∧ b.tail < b.size ∧ b.wrtn < b.size

/-- Cursor invariant lifted to a possibly unbound engine. -/
def CursorInvO : Option HeapBuffer → Prop
  | none => True
  | some b => CursorInv b

/-- The `CarlaHeapRingBuffer` object: the owned `fHeapBuffer` struct plus the
engine pointer `fBuffer`, which is always either `nullptr` or
`&fHeapBuffer`; the Boolean `bound` records which. -/
structure CarlaHeapRingBuffer where
  fHeapBuffer : HeapBuffer
  bound : Bool
  deriving DecidableEq, Repr

/-- `CarlaRingBuffer::setRingBuffer(ringBuf, reset)` as reachable from
`CarlaHeapRingBuffer`: the argument is `&fHeapBuffer` (`ringBufIsSelf =
true`) or `nullptr` (`false`).  The safe-assert `ringBuf != fBuffer` makes
the call a no-op when the pointer equals the current binding. -/
def setRingBuffer (s : CarlaHeapRingBuffer) (ringBufIsSelf reset : Bool) :
    CarlaHeapRingBuffer :=
  if ringBufIsSelf = s.bound then s
  else
    let s' := { s with bound := ringBufIsSelf }
    if reset && ringBufIsSelf then
      { s' with fHeapBuffer := clear s'.fHeapBuffer }
    else s'

/-- `CarlaHeapRingBuffer::createBuffer(size)`: rounds the capacity up,
allocates fresh (uninitialized) storage — modelled by the arbitrary byte list
`fresh` — and calls `setRingBuffer(&fHeapBuffer, true)`. -/
def createBuffer (s : CarlaHeapRingBuffer) (size : Nat) (fresh : List Nat) :
    CarlaHeapRingBuffer :=
  if size = 0 then s
  else
    setRingBuffer
      { s with fHeapBuffer :=
        { s.fHeapBuffer with size := carla_nextPowerOf2 size, buf := fresh } }
      true true

/-! Helper lemmas about the byte-slice operations. -/

theorem length_writeBytes (l d : List Nat) (s : Nat) (h : s + d.length ≤ l.length) :
    (writeBytes l s d).length = l.length := by
  simp only [writeBytes, List.length_append, List.length_take, List.length_drop]
  omega

theorem getElem?_writeBytes (l d : List Nat) (s : Nat) (h : s + d.length ≤ l.length)
    (i : Nat) :
    (writeBytes l s d)[i]? =
      if s ≤ i ∧ i < s + d.length then d[i - s]? else l[i]? := by
  have hts : (l.take s).length = s := by simp; omega
  have hts2 : (l.take s ++ d).length = s + d.length := by
    simp only [List.length_append, hts]
  by_cases h1 : i < s
  · rw [if_neg (by omega)]
    rw [writeBytes, List.getElem?_append_left (by rw [hts2]; omega),
      List.getElem?_append_left (by rw [hts]; omega),
      List.getElem?_take_of_lt h1]
  · by_cases h2 : i < s + d.length
    · rw [if_pos ⟨by omega, h2⟩]
      rw [writeBytes, List.getElem?_append_left (by rw [hts2]; omega),
        List.getElem?_append_right (by rw [hts]; omega), hts]
    · rw [if_neg (by omega)]
      rw [writeBytes, List.getElem?_append_right (by rw [hts2]; omega), hts2,
        List.getElem?_drop]
      congr 1
      omega

theorem length_readBytes (l : List Nat) (s n : Nat) (h : s + n ≤ l.length) :
    (readBytes l s n).length = n := by
  simp only [readBytes, List.length_take, List.length_drop]
  omega

theorem getElem?_readBytes (l : List Nat) (s n k : Nat) (hk : k < n) :
    (readBytes l s n)[k]? = l[s + k]? := by
  rw [readBytes, List.getElem?_take_of_lt hk, List.getElem?_drop]

/-! Modular-arithmetic helpers for circular cursor positions. -/

theorem circ_mod_sub (cap p k : Nat) (hp : p < cap) (hk : k < cap) :
    ((p + k) % cap + cap - p) % cap = k := by
  by_cases h : p + k < cap
  · rw [Nat.mod_eq_of_lt h, show p + k + cap - p = k + cap by omega,
      Nat.add_mod_right, Nat.mod_eq_of_lt hk]
  · have h2 : (p + k) % cap = p + k - cap := by
      rw [Nat.mod_eq_sub_mod (by omega)]
      exact Nat.mod_eq_of_lt (by omega)
    rw [h2, show p + k - cap + cap - p = k by omega, Nat.mod_eq_of_lt hk]

theorem dist_mod_eq (cap h t k : Nat) (hh : h < cap) (ht : t < cap) (hk : k < cap) :
    ((t + k) % cap + cap - h) % cap = (t + k + cap - h) % cap := by
  by_cases hc : t + k < cap
  · rw [Nat.mod_eq_of_lt hc]
  · have h2 : (t + k) % cap = t + k - cap := by
      rw [Nat.mod_eq_sub_mod (by omega)]
      exact Nat.mod_eq_of_lt (by omega)
    rw [h2, show t + k - cap + cap - h = t + k - h by omega,
      show t + k + cap - h = t + k - h + cap by omega, Nat.add_mod_right]

/-- Cursor positions touched by an uncommitted write (circular window of
length `lenA` starting at `h = wrtn`) are never inside the readable window
(circular window of length `availData` starting at `t = tail`). -/
theorem dist_unread (cap h t lenA n k : Nat) (hh : h < cap) (ht : t < cap)
    (hne : h ≠ t)
    (hA : lenA < (if t > h then 0 else cap) + t - h)
    (hn : n ≤ (if h > t then 0 else cap) + h - t) (hk : k < n) :
    ¬ ((t + k) % cap + cap - h) % cap < lenA := by
  have hkcap : k < cap := by
    by_cases hc : h > t
    · simp only [if_pos hc] at hn; omega
    · simp only [if_neg hc] at hn; omega
  rw [dist_mod_eq cap h t k hh ht hkcap]
  by_cases hc : t > h
  · -- free region is t - h; readable length is cap + h - t
    simp only [if_pos hc] at hA
    simp only [if_neg (by omega : ¬ h > t)] at hn
    by_cases h2 : t + k < cap
    · rw [show t + k + cap - h = t + k - h + cap by omega, Nat.add_mod_right,
        Nat.mod_eq_of_lt (by omega)]
      omega
    · have e : (t + k + cap - h) % cap = t + k - h := by
        rw [Nat.mod_eq_sub_mod (by omega),
          show t + k + cap - h - cap = t + k - h by omega]
        exact Nat.mod_eq_of_lt (by omega)
      rw [e]
      omega
  · -- h > t (h = t excluded): free region is cap + t - h; readable is h - t
    have hc2 : h > t := by omega
    simp only [if_neg (by omega : ¬ t > h)] at hA
    simp only [if_pos hc2] at hn
    rw [Nat.mod_eq_of_lt (by omega : t + k + cap - h < cap)]
    omega

/-! Characterization lemmas for the primitive operations. -/

theorem tryRead_fail (b : HeapBuffer) (nn : Bool) (n : Nat)
    (h : nn = false ∨ n = 0 ∨ b.size ≤ n ∨ b.head = b.tail ∨ availData b < n) :
    tryRead (some b) nn n = (none, some b) := by
  simp only [tryRead]
  by_cases h1 : nn = false
  · rw [if_pos h1]
  · rw [if_neg h1]
    by_cases h2 : n = 0
    · rw [if_pos h2]
    · rw [if_neg h2]
      by_cases h3 : ¬ n < b.size
      · rw [if_pos h3]
      · rw [if_neg h3]
        have h3' : n < b.size := not_not.mp h3
        by_cases h4 : b.head = b.tail
        · rw [if_pos h4]
        · rw [if_neg h4]
          have h5 : availData b < n := by
            rcases h with h | h | h | h | h
            · exact absurd h h1
            · exact absurd h h2
            · omega
            · exact absurd h h4
            · exact h
          unfold availData at h5
          rw [if_pos (show n > _ from h5)]

theorem tryWrite_reject (b : HeapBuffer) (d : List Nat)
    (h : d.length = 0 ∨ b.size ≤ d.length) :
    tryWrite (some b) (some d) = (false, some b) := by
  simp only [tryWrite]
  by_cases h1 : d.length = 0
  · rw [if_pos h1]
  · rw [if_neg h1, if_pos (by omega)]

theorem tryWrite_full (b : HeapBuffer) (d : List Nat)
    (h0 : d.length ≠ 0) (hcap : d.length < b.size)
    (hfull : ¬ d.length < freeSpace b) :
    tryWrite (some b) (some d) = (false, some { b with invalidateCommit := true }) := by
  unfold freeSpace at hfull
  simp only [tryWrite]
  rw [if_neg h0, if_neg (not_not_intro hcap), if_pos (show d.length ≥ _ by omega)]

theorem tryRead_ok (b : HeapBuffer) (n : Nat)
    (hh : b.head < b.size) (ht : b.tail < b.size) (hlen : b.buf.length = b.size)
    (h0 : n ≠ 0) (hne : b.head ≠ b.tail) (havail : n ≤ availData b) :
    ∃ bytes,
      tryRead (some b) true n =
        (some bytes, some { b with tail := (b.tail + n) % b.size }) ∧
      bytes.length = n ∧
      ∀ k, k < n → bytes[k]? = b.buf[(b.tail + k) % b.size]? := by
  have hncap : n < b.size := by
    unfold availData at havail
    by_cases hc : b.head > b.tail
    · rw [if_pos hc] at havail; omega
    · rw [if_neg hc] at havail; omega
  have havail' : ¬ n > (if b.head > b.tail then 0 else b.size) + b.head - b.tail := by
    unfold availData at havail; omega
  by_cases hwrap : b.tail + n > b.size
  · -- the read crosses the end of the storage region
    have hfp : b.size - b.tail < n := by omega
    refine ⟨readBytes b.buf b.tail (b.size - b.tail) ++
      readBytes b.buf 0 (b.tail + n - b.size), ?_, ?_, ?_⟩
    · simp only [tryRead]
      rw [if_neg (by simp), if_neg h0, if_neg (not_not_intro hncap), if_neg hne,
        if_neg havail', if_pos (show b.tail + n > b.size from hwrap)]
      have : (b.tail + n) % b.size = b.tail + n - b.size := by
        rw [Nat.mod_eq_sub_mod (by omega)]
        exact Nat.mod_eq_of_lt (by omega)
      rw [this]
    · rw [List.length_append, length_readBytes _ _ _ (by omega),
        length_readBytes _ _ _ (by omega)]
      omega
    · intro k hk
      have hlfp : (readBytes b.buf b.tail (b.size - b.tail)).length =
          b.size - b.tail := length_readBytes _ _ _ (by omega)
      by_cases hkf : k < b.size - b.tail
      · rw [List.getElem?_append_left (by omega),
          getElem?_readBytes _ _ _ _ hkf,
          Nat.mod_eq_of_lt (by omega)]
      · rw [List.getElem?_append_right (by omega), hlfp,
          getElem?_readBytes _ _ _ _ (by omega)]
        have : (b.tail + k) % b.size = b.tail + k - b.size := by
          rw [Nat.mod_eq_sub_mod (by omega)]
          exact Nat.mod_eq_of_lt (by omega)
        rw [this]
        congr 1
        omega
  · -- contiguous read
    refine ⟨readBytes b.buf b.tail n, ?_, ?_, ?_⟩
    · simp only [tryRead]
      rw [if_neg (by simp), if_neg h0, if_neg (not_not_intro hncap), if_neg hne,
        if_neg havail', if_neg (show ¬ b.tail + n > b.size from hwrap)]
      by_cases he : b.tail + n = b.size
      · rw [if_pos he, show (b.tail + n) % b.size = 0 by rw [he, Nat.mod_self]]
      · rw [if_neg he, show (b.tail + n) % b.size = b.tail + n from
          Nat.mod_eq_of_lt (by omega)]
    · exact length_readBytes _ _ _ (by omega)
    · intro k hk
      rw [getElem?_readBytes _ _ _ _ hk, Nat.mod_eq_of_lt (by omega)]

theorem tryWrite_ok (b : HeapBuffer) (d : List Nat)
    (ht : b.tail < b.size) (hw : b.wrtn < b.size) (hlen : b.buf.length = b.size)
    (h0 : d.length ≠ 0) (hfree : d.length < freeSpace b) :
    ∃ buf1,
      tryWrite (some b) (some d) =
        (true, some { b with wrtn := (b.wrtn + d.length) % b.size, buf := buf1 }) ∧
      buf1.length = b.size ∧
      ∀ i : Nat, buf1[i]? =
        if (i + b.size - b.wrtn) % b.size < d.length ∧ i < b.size
        then d[(i + b.size - b.wrtn) % b.size]?
        else b.buf[i]? := by
  have hdcap : d.length < b.size := by
    unfold freeSpace at hfree
    by_cases hc : b.tail > b.wrtn
    · rw [if_pos hc] at hfree; omega
    · rw [if_neg hc] at hfree; omega
  have hfree' : ¬ d.length ≥ (if b.tail > b.wrtn then 0 else b.size) + b.tail - b.wrtn := by
    unfold freeSpace at hfree; omega
  by_cases hwrap : b.wrtn + d.length > b.size
  · -- the write crosses the end of the storage region
    have htw : ¬ b.tail > b.wrtn := by
      intro hc
      unfold freeSpace at hfree
      rw [if_pos hc] at hfree
      omega
    have hsec : b.wrtn + d.length - b.size < b.tail := by
      unfold freeSpace at hfree
      rw [if_neg htw] at hfree
      omega
    have hfp : b.size - b.wrtn < d.length := by omega
    have htklen : (d.take (b.size - b.wrtn)).length = b.size - b.wrtn := by
      simp; omega
    have hinlen : (writeBytes b.buf b.wrtn (d.take (b.size - b.wrtn))).length = b.size := by
      rw [length_writeBytes _ _ _ (by omega), hlen]
    refine ⟨writeBytes (writeBytes b.buf b.wrtn (d.take (b.size - b.wrtn))) 0
      (d.drop (b.size - b.wrtn)), ?_, ?_, ?_⟩
    · simp only [tryWrite]
      rw [if_neg h0, if_neg (not_not_intro hdcap), if_neg hfree',
        if_pos (show b.wrtn + d.length > b.size from hwrap)]
      have : (b.wrtn + d.length) % b.size = b.wrtn + d.length - b.size := by
        rw [Nat.mod_eq_sub_mod (by omega)]
        exact Nat.mod_eq_of_lt (by omega)
      rw [this]
    · rw [length_writeBytes _ _ _ (by simp; omega), hinlen]
    · intro i
      rw [getElem?_writeBytes _ _ _
          (by simp only [List.length_drop, hinlen]; omega) i,
        getElem?_writeBytes _ _ _ (by rw [htklen]; omega) i]
      simp only [List.length_drop, Nat.zero_le, true_and, Nat.zero_add, Nat.sub_zero,
        htklen]
      by_cases hc1 : i < d.length - (b.size - b.wrtn)
      · rw [if_pos hc1, List.getElem?_drop]
        have hmod : (i + b.size - b.wrtn) % b.size = i + b.size - b.wrtn :=
          Nat.mod_eq_of_lt (by omega)
        rw [hmod, if_pos ⟨by omega, by omega⟩]
        congr 1
        omega
      · rw [if_neg hc1]
        by_cases hc2 : i < b.wrtn
        · have hmod : (i + b.size - b.wrtn) % b.size = i + b.size - b.wrtn :=
            Nat.mod_eq_of_lt (by omega)
          rw [hmod, if_neg (by omega), if_neg (by rintro ⟨hx, -⟩; omega)]
        · by_cases hc3 : i < b.size
          · have hmod : (i + b.size - b.wrtn) % b.size = i - b.wrtn := by
              rw [show i + b.size - b.wrtn = (i - b.wrtn) + b.size by omega,
                Nat.add_mod_right]
              exact Nat.mod_eq_of_lt (by omega)
            rw [hmod, if_pos ⟨by omega, by omega⟩,
              if_pos ⟨by omega, by omega⟩,
              List.getElem?_take_of_lt (by omega)]
          · rw [if_neg (by omega), if_neg (by rintro ⟨-, hx⟩; omega)]
  · -- contiguous write
    have hble : b.wrtn + d.length ≤ b.size := by omega
    refine ⟨writeBytes b.buf b.wrtn d, ?_, ?_, ?_⟩
    · simp only [tryWrite]
      rw [if_neg h0, if_neg (not_not_intro hdcap), if_neg hfree',
        if_neg (show ¬ b.wrtn + d.length > b.size from hwrap)]
      by_cases he : b.wrtn + d.length = b.size
      · rw [if_pos he, show (b.wrtn + d.length) % b.size = 0 by rw [he, Nat.mod_self]]
      · rw [if_neg he, show (b.wrtn + d.length) % b.size = b.wrtn + d.length from
          Nat.mod_eq_of_lt (by omega)]
    · rw [length_writeBytes _ _ _ (by omega), hlen]
    · intro i
      rw [getElem?_writeBytes _ _ _ (by omega) i]
      by_cases hc1 : i < b.size
      · by_cases hc2 : b.wrtn ≤ i
        · have hmod : (i + b.size - b.wrtn) % b.size = i - b.wrtn := by
            rw [show i + b.size - b.wrtn = (i - b.wrtn) + b.size by omega,
              Nat.add_mod_right]
            exact Nat.mod_eq_of_lt (by omega)
          rw [hmod]
          by_cases hc3 : i < b.wrtn + d.length
          · rw [if_pos ⟨hc2, hc3⟩, if_pos ⟨by omega, hc1⟩]
          · rw [if_neg (by omega), if_neg (by rintro ⟨hx, -⟩; omega)]
        · have hmod : (i + b.size - b.wrtn) % b.size = i + b.size - b.wrtn :=
            Nat.mod_eq_of_lt (by omega)
          rw [hmod, if_neg (by omega), if_neg (by rintro ⟨hx, -⟩; omega)]
      · rw [if_neg (by omega), if_neg (by rintro ⟨-, hx⟩; omega)]

/-! Claim theorems. -/

/-- C1: for every bound buffer state, `commitWrite()` behaves exactly as: if
`invalidateCommit` is set, it assigns `wrtn := head`, clears the flag and
returns failure; otherwise, if `head == wrtn` it returns failure with no
state change; otherwise it assigns `head := wrtn` and returns success. -/
theorem commitWrite_behavior (b : HeapBuffer) :
    (b.invalidateCommit = true →
      commitWrite (some b) =
        (false, some { b with wrtn := b.head, invalidateCommit := false })) ∧
    (b.invalidateCommit = false → b.head = b.wrtn →
      commitWrite (some b) = (false, some b)) ∧
    (b.invalidateCommit = false → b.head ≠ b.wrtn →
      commitWrite (some b) = (true, some { b with head := b.wrtn })) := by
  refine ⟨fun h => ?_, fun h1 h2 => ?_, fun h1 h2 => ?_⟩
  · simp [commitWrite, h]
  · simp [commitWrite, h1, h2]
  · simp [commitWrite, h1, h2]

/-- Witness for C1: the three branches of `commitWrite` at concrete states. -/
theorem commitWrite_behavior_witness :
    commitWrite (some ⟨4, 1, 2, 3, true, [0, 0, 0, 0]⟩) =
      (false, some ⟨4, 1, 2, 1, false, [0, 0, 0, 0]⟩) ∧
    commitWrite (some ⟨4, 2, 1, 2, false, [0, 0, 0, 0]⟩) =
      (false, some ⟨4, 2, 1, 2, false, [0, 0, 0, 0]⟩) ∧
    commitWrite (some ⟨4, 1, 1, 3, false, [0, 0, 0, 0]⟩) =
      (true, some ⟨4, 3, 1, 3, false, [0, 0, 0, 0]⟩) :=
  ⟨(commitWrite_behavior _).1 rfl,
   (commitWrite_behavior _).2.1 rfl rfl,
   (commitWrite_behavior _).2.2 rfl (by decide)⟩

/-- C3: for every bound buffer and every write request with non-null source
and `0 < size < capacity`, the free space `wrap + tail - wrtn` computed by
`tryWrite` is the circular distance from `wrtn` forward to `tail` (with the
whole capacity free when they coincide), and if `size` is not strictly less
than that free space, `tryWrite` sets `invalidateCommit := true` and returns
failure with `wrtn` and the storage bytes unchanged. -/
theorem tryWrite_insufficient_space (b : HeapBuffer) (d : List Nat)
    (ht : b.tail < b.size) (hw : b.wrtn < b.size)
    (h0 : d.length ≠ 0) (hcap : d.length < b.size)
    (hfull : ¬ d.length < freeSpace b) :
    freeSpace b = (if b.tail = b.wrtn then b.size
                   else (b.tail + b.size - b.wrtn) % b.size) ∧
    tryWrite (some b) (some d) =
      (false, some { b with invalidateCommit := true }) := by
  constructor
  · unfold freeSpace
    by_cases he : b.tail = b.wrtn
    · rw [if_pos he, if_neg (show ¬ b.tail > b.wrtn by omega)]
      omega
    · rw [if_neg he]
      by_cases hc : b.tail > b.wrtn
      · rw [if_pos hc]
        have hmod : (b.tail + b.size - b.wrtn) % b.size = b.tail - b.wrtn := by
          rw [show b.tail + b.size - b.wrtn = (b.tail - b.wrtn) + b.size by omega,
            Nat.add_mod_right]
          exact Nat.mod_eq_of_lt (by omega)
        rw [hmod]
        omega
      · rw [if_neg hc]
        have hmod : (b.tail + b.size - b.wrtn) % b.size = b.tail + b.size - b.wrtn :=
          Nat.mod_eq_of_lt (by omega)
        rw [hmod]
        omega
  · exact tryWrite_full b d h0 hcap hfull

/-- Witness for C3 at a concrete state: `tail = 2`, `wrtn = 6`, capacity 8,
free space 4, request of 4 bytes refused with the flag set. -/
theorem tryWrite_insufficient_space_witness :
    (2:Nat) < 8 ∧ (6:Nat) < 8 ∧ ([5, 5, 5, 5] : List Nat).length ≠ 0 ∧
    ([5, 5, 5, 5] : List Nat).length < 8 ∧
    ¬ ([5, 5, 5, 5] : List Nat).length <
        freeSpace ⟨8, 0, 2, 6, false, [0, 0, 0, 0, 0, 0, 0, 0]⟩ ∧
    (freeSpace ⟨8, 0, 2, 6, false, [0, 0, 0, 0, 0, 0, 0, 0]⟩ =
      (if (2:Nat) = 6 then 8 else (2 + 8 - 6) % 8) ∧
     tryWrite (some ⟨8, 0, 2, 6, false, [0, 0, 0, 0, 0, 0, 0, 0]⟩)
        (some [5, 5, 5, 5]) =
      (false, some ⟨8, 0, 2, 6, true, [0, 0, 0, 0, 0, 0, 0, 0]⟩)) :=
  ⟨by decide, by decide, by decide, by decide, by decide,
   tryWrite_insufficient_space ⟨8, 0, 2, 6, false, [0, 0, 0, 0, 0, 0, 0, 0]⟩
     [5, 5, 5, 5] (by decide) (by decide) (by decide) (by decide) (by decide)⟩

/-- C6 counterexample: the claim says an unbound `isDataAvailableForReading()`
returns true, but the safe-assert in the code returns false. -/
theorem isDataAvailable_unbound_cex :
    ¬ (isDataAvailableForReading none = true) := by decide

/-- C6 amended: `isEmpty()` is true iff `head == tail` and
`isDataAvailableForReading()` is true iff `head != tail`; when the engine is
unbound BOTH return false. -/
theorem queries_compare_head_tail (b : HeapBuffer) :
    isEmpty (some b) = (b.head == b.tail) ∧
    isDataAvailableForReading (some b) = !(b.head == b.tail) ∧
    isEmpty none = false ∧
    isDataAvailableForReading none = false :=
  ⟨rfl, rfl, rfl, rfl⟩

/-- C7: every primitive read or write with an unbound state, a null data
pointer, zero size, or `size ≥ capacity` returns failure and mutates no state
at all. -/
theorem primitives_reject_invalid (b : HeapBuffer) (nn : Bool) (n : Nat)
    (d : List Nat) :
    tryRead none nn n = (none, none) ∧
    tryWrite none (some d) = (false, none) ∧
    tryWrite none none = (false, none) ∧
    tryRead (some b) false n = (none, some b) ∧
    tryWrite (some b) none = (false, some b) ∧
    tryRead (some b) nn 0 = (none, some b) ∧
    tryWrite (some b) (some []) = (false, some b) ∧
    (b.size ≤ n → tryRead (some b) nn n = (none, some b)) ∧
    (b.size ≤ d.length → tryWrite (some b) (some d) = (false, some b)) :=
  ⟨rfl, rfl, rfl, tryRead_fail b false n (Or.inl rfl), rfl,
   tryRead_fail b nn 0 (Or.inr (Or.inl rfl)),
   tryWrite_reject b [] (Or.inl rfl),
   fun h => tryRead_fail b nn n (Or.inr (Or.inr (Or.inl h))),
   fun h => tryWrite_reject b d (Or.inr h)⟩

/-- Witness for C7: an oversized read and an oversized write on a concrete
bound buffer are rejected without mutation. -/
theorem primitives_reject_invalid_witness :
    ((4:Nat) ≤ 9 ∧
      tryRead (some ⟨4, 1, 0, 1, false, [3, 0, 0, 0]⟩) true 9 =
        (none, some ⟨4, 1, 0, 1, false, [3, 0, 0, 0]⟩)) ∧
    ((4:Nat) ≤ ([1, 2, 3, 4, 5] : List Nat).length ∧
      tryWrite (some ⟨4, 1, 0, 1, false, [3, 0, 0, 0]⟩) (some [1, 2, 3, 4, 5]) =
        (false, some ⟨4, 1, 0, 1, false, [3, 0, 0, 0]⟩)) :=
  ⟨⟨by decide,
    (primitives_reject_invalid ⟨4, 1, 0, 1, false, [3, 0, 0, 0]⟩ true 9
      [1, 2, 3, 4, 5]).2.2.2.2.2.2.2.1 (by decide)⟩,
   ⟨by decide,
    (primitives_reject_invalid ⟨4, 1, 0, 1, false, [3, 0, 0, 0]⟩ true 9
      [1, 2, 3, 4, 5]).2.2.2.2.2.2.2.2 (by decide)⟩⟩

/-- C10: calling `CarlaHeapRingBuffer::createBuffer` while already bound
replaces the storage and the capacity, but keeps `head`, `tail`, `wrtn` and
`invalidateCommit`, and never zero-fills: `setRingBuffer` refuses the pointer
equal to the current binding, so `clear()` is not invoked. -/
theorem createBuffer_rebind_no_clear (s : CarlaHeapRingBuffer) (size : Nat)
    (fresh : List Nat) (hbound : s.bound = true) (h0 : size ≠ 0) :
    (createBuffer s size fresh).fHeapBuffer.head = s.fHeapBuffer.head ∧
    (createBuffer s size fresh).fHeapBuffer.tail = s.fHeapBuffer.tail ∧
    (createBuffer s size fresh).fHeapBuffer.wrtn = s.fHeapBuffer.wrtn ∧
    (createBuffer s size fresh).fHeapBuffer.invalidateCommit =
      s.fHeapBuffer.invalidateCommit ∧
    (createBuffer s size fresh).fHeapBuffer.buf = fresh ∧
    (createBuffer s size fresh).fHeapBuffer.size = carla_nextPowerOf2 size ∧
    (createBuffer s size fresh).bound = true := by
  have key : createBuffer s size fresh =
      { s with fHeapBuffer :=
        { s.fHeapBuffer with size := carla_nextPowerOf2 size, buf := fresh } } := by
    simp [createBuffer, setRingBuffer, hbound, h0]
  rw [key]
  exact ⟨rfl, rfl, rfl, rfl, rfl, rfl, hbound⟩

/-- Witness for C10: a second `createBuffer(3)` on a bound heap ring buffer
shrinks the capacity to 4 while the retained cursors 9 and 5 exceed it, and
the storage is the fresh allocation, not zero-filled. -/
theorem createBuffer_rebind_no_clear_witness :
    ((⟨⟨16, 9, 5, 9, true, List.replicate 16 7⟩, true⟩ :
        CarlaHeapRingBuffer).bound = true ∧ (3:Nat) ≠ 0) ∧
    ((createBuffer ⟨⟨16, 9, 5, 9, true, List.replicate 16 7⟩, true⟩ 3
        [1, 1, 1, 1]).fHeapBuffer.head = 9 ∧
     (createBuffer ⟨⟨16, 9, 5, 9, true, List.replicate 16 7⟩, true⟩ 3
        [1, 1, 1, 1]).fHeapBuffer.size = carla_nextPowerOf2 3) ∧
    carla_nextPowerOf2 3 = 4 ∧
    ¬ ((9:Nat) < carla_nextPowerOf2 3) ∧
    ([1, 1, 1, 1] : List Nat) ≠ List.replicate (carla_nextPowerOf2 3) 0 :=
  ⟨⟨rfl, by decide⟩,
   ⟨(createBuffer_rebind_no_clear ⟨⟨16, 9, 5, 9, true, List.replicate 16 7⟩, true⟩
       3 [1, 1, 1, 1] rfl (by decide)).1,
    (createBuffer_rebind_no_clear ⟨⟨16, 9, 5, 9, true, List.replicate 16 7⟩, true⟩
       3 [1, 1, 1, 1] rfl (by decide)).2.2.2.2.2.1⟩,
   by decide, by decide, by decide⟩

/-- C4 counterexample: on a bound buffer that still holds committed unread
data (`head = wrtn = 6`, `tail = 2`, capacity 8), a successful `tryWrite` of
`[1,2,3]` crossing the end of storage followed by a successful `tryRead` of
the same size returns the old bytes `[12,13,14]`, not the written sequence. -/
theorem wraparound_roundtrip_cex :
    (tryWrite (some ⟨8, 6, 2, 6, false, [10, 11, 12, 13, 14, 15, 16, 17]⟩)
        (some [1, 2, 3])).1 = true ∧
    (6:Nat) + 3 > 8 ∧
    (tryRead (tryWrite (some ⟨8, 6, 2, 6, false, [10, 11, 12, 13, 14, 15, 16, 17]⟩)
        (some [1, 2, 3])).2 true 3).1 = some [12, 13, 14] ∧
    ¬ ((some [12, 13, 14] : Option (List Nat)) = some [1, 2, 3]) := by decide

/-- C4 amended: on a bound buffer with all cursors equal (nothing pending and
nothing unread) and a clear flag, a successful `tryWrite` whose byte sequence
crosses the end of the storage region — it copies a tail segment then a
wrap-around head segment and advances `wrtn` by `size` modulo `capacity` —
followed by `commitWrite()` and a successful `tryRead` of the same size
returns exactly the original bytes. -/
theorem wraparound_roundtrip (b : HeapBuffer) (d : List Nat)
    (hempty : b.head = b.tail) (hwr : b.wrtn = b.head)
    (hflag : b.invalidateCommit = false)
    (hp : b.head < b.size) (hlen : b.buf.length = b.size)
    (h0 : d.length ≠ 0) (hcap : d.length < b.size)
    (hcross : b.wrtn + d.length > b.size) :
    ∃ b1 b2 bytes b3,
      tryWrite (some b) (some d) = (true, some b1) ∧
      b1.wrtn = (b.wrtn + d.length) % b.size ∧
      commitWrite (some b1) = (true, some b2) ∧
      tryRead (some b2) true d.length = (some bytes, some b3) ∧
      bytes = d := by
  have htail : b.tail < b.size := by omega
  have hw : b.wrtn < b.size := by omega
  have hfree : d.length < freeSpace b := by
    unfold freeSpace
    rw [if_neg (show ¬ b.tail > b.wrtn by omega)]
    omega
  obtain ⟨buf1, heq1, hlen1, hpt1⟩ := tryWrite_ok b d htail hw hlen h0 hfree
  have hmodw : (b.wrtn + d.length) % b.size = b.wrtn + d.length - b.size := by
    rw [Nat.mod_eq_sub_mod (by omega)]
    exact Nat.mod_eq_of_lt (by omega)
  have hne2 : ¬ b.head = (b.wrtn + d.length) % b.size := by
    rw [hmodw]
    omega
  have heq2 : commitWrite (some { b with
      wrtn := (b.wrtn + d.length) % b.size, buf := buf1 }) =
      (true, some { b with head := (b.wrtn + d.length) % b.size,
                           wrtn := (b.wrtn + d.length) % b.size, buf := buf1 }) := by
    simp [commitWrite, hflag, hne2]
  obtain ⟨bytes, heq3, hlen3, hpt3⟩ := tryRead_ok
    { b with head := (b.wrtn + d.length) % b.size,
             wrtn := (b.wrtn + d.length) % b.size, buf := buf1 } d.length
    (by show (b.wrtn + d.length) % b.size < b.size; rw [hmodw]; omega)
    (by show b.tail < b.size; omega)
    (by show buf1.length = b.size; exact hlen1)
    h0
    (by show ¬ (b.wrtn + d.length) % b.size = b.tail; rw [hmodw]; omega)
    (by
      show d.length ≤
        (if (b.wrtn + d.length) % b.size > b.tail then 0 else b.size) +
          (b.wrtn + d.length) % b.size - b.tail
      rw [hmodw, if_neg (show ¬ b.wrtn + d.length - b.size > b.tail by omega)]
      omega)
  refine ⟨_, _, bytes, _, heq1, rfl, heq2, heq3, ?_⟩
  apply List.ext_getElem?
  intro k
  by_cases hk : k < d.length
  · rw [hpt3 k hk]
    show buf1[(b.tail + k) % b.size]? = d[k]?
    rw [hpt1 ((b.tail + k) % b.size)]
    have hkc : k < b.size := by omega
    have hdist : ((b.tail + k) % b.size + b.size - b.wrtn) % b.size = k := by
      rw [show b.tail = b.wrtn by omega]
      exact circ_mod_sub b.size b.wrtn k hw hkc
    rw [if_pos ⟨by rw [hdist]; omega, Nat.mod_lt _ (by omega)⟩, hdist]
  · rw [List.getElem?_eq_none_iff.mpr (by omega),
      List.getElem?_eq_none_iff.mpr (by omega)]

/-- Witness for the amended C4: capacity 8, all cursors at 6, writing 3 bytes
wraps around the end and reads back exactly. -/
theorem wraparound_roundtrip_witness :
    (([1, 2, 3] : List Nat).length ≠ 0 ∧ (6:Nat) + 3 > 8) ∧
    (∃ b1 b2 bytes b3,
      tryWrite (some ⟨8, 6, 6, 6, false, [0, 0, 0, 0, 0, 0, 0, 0]⟩)
          (some [1, 2, 3]) = (true, some b1) ∧
      b1.wrtn = (6 + 3) % 8 ∧
      commitWrite (some b1) = (true, some b2) ∧
      tryRead (some b2) true 3 = (some bytes, some b3) ∧
      bytes = [1, 2, 3]) :=
  ⟨⟨by decide, by decide⟩,
   wraparound_roundtrip ⟨8, 6, 6, 6, false, [0, 0, 0, 0, 0, 0, 0, 0]⟩ [1, 2, 3]
     rfl rfl rfl (by decide) (by decide) (by decide) (by decide) (by decide)⟩

/-- C9: on a freshly cleared bound buffer of capacity greater than 4,
`writeInt(42)` succeeds, `commitWrite()` succeeds, a subsequent `readInt()`
returns 42 and afterwards the buffer is empty again (`head == tail`). -/
theorem writeInt_commit_readInt_42 (b : HeapBuffer) (hcap : 4 < b.size) :
    ∃ b1 b2 b3,
      writeInt (some (clear b)) 42 = (true, some b1) ∧
      commitWrite (some b1) = (true, some b2) ∧
      readInt (some b2) = (42, some b3) ∧
      b3.head = b3.tail := by
  have hd : intToBytesLE 4 42 = [42, 0, 0, 0] := by decide
  have hfree : ([42, 0, 0, 0] : List Nat).length < freeSpace (clear b) := by
    show 4 < (if (0:Nat) > 0 then 0 else b.size) + 0 - 0
    rw [if_neg (by omega)]
    omega
  obtain ⟨buf1, heq1, hlen1, hpt1⟩ := tryWrite_ok (clear b) [42, 0, 0, 0]
    (by show (0:Nat) < b.size; omega) (by show (0:Nat) < b.size; omega)
    (by show (List.replicate b.size 0).length = b.size; simp)
    (by decide) hfree
  have hmod4 : ((0:Nat) + 4) % b.size = 4 := Nat.mod_eq_of_lt (by omega)
  have heq1' : writeInt (some (clear b)) 42 =
      (true, some { clear b with wrtn := (0 + 4) % b.size, buf := buf1 }) := by
    rw [writeInt, hd]
    exact heq1
  have hne2 : ¬ (0:Nat) = (0 + 4) % b.size := by rw [hmod4]; omega
  have heq2 : commitWrite (some { clear b with wrtn := (0 + 4) % b.size, buf := buf1 }) =
      (true, some { clear b with
        head := (0 + 4) % b.size, wrtn := (0 + 4) % b.size, buf := buf1 }) := by
    simp [commitWrite, clear, hne2]
  obtain ⟨bytes, heq3, hlen3, hpt3⟩ := tryRead_ok
    { clear b with
      head := (0 + 4) % b.size, wrtn := (0 + 4) % b.size, buf := buf1 } 4
    (by show ((0:Nat) + 4) % b.size < b.size; omega)
    (by show (0:Nat) < b.size; omega)
    (by show buf1.length = b.size; exact hlen1)
    (by decide)
    (by show ¬ ((0:Nat) + 4) % b.size = 0; rw [hmod4]; omega)
    (by
      show 4 ≤ (if ((0:Nat) + 4) % b.size > 0 then 0 else b.size) + (0 + 4) % b.size - 0
      rw [hmod4, if_pos (by omega)])
  have hpt1' : ∀ i : Nat, buf1[i]? =
      if (i + b.size - 0) % b.size < 4 ∧ i < b.size
      then [42, 0, 0, 0][(i + b.size - 0) % b.size]?
      else (List.replicate b.size 0)[i]? := by
    intro i
    exact hpt1 i
  have hbytes : bytes = [42, 0, 0, 0] := by
    apply List.ext_getElem?
    intro k
    by_cases hk : k < 4
    · rw [hpt3 k hk]
      show buf1[((0:Nat) + k) % b.size]? = _
      have hmk : ((0:Nat) + k) % b.size = k := by
        rw [Nat.zero_add]
        exact Nat.mod_eq_of_lt (by omega)
      rw [hmk, hpt1' k]
      have hdk : (k + b.size - 0) % b.size = k := by
        rw [show k + b.size - 0 = k + b.size by omega, Nat.add_mod_right]
        exact Nat.mod_eq_of_lt (by omega)
      rw [if_pos ⟨by rw [hdk]; omega, by omega⟩, hdk]
    · rw [List.getElem?_eq_none_iff.mpr (by omega),
        List.getElem?_eq_none_iff.mpr (by simp; omega)]
  have heq3' : readInt (some { clear b with
      head := (0 + 4) % b.size, wrtn := (0 + 4) % b.size, buf := buf1 }) =
      (42, some { clear b with
        head := (0 + 4) % b.size, wrtn := (0 + 4) % b.size,
        buf := buf1, tail := (0 + 4) % b.size }) := by
    rw [readInt, heq3, hbytes]
    norm_num [bytesToNatLE, toSigned, clear]
  exact ⟨_, _, _, heq1', heq2, heq3', rfl⟩

/-- Witness for C9 at capacity 8. -/
theorem writeInt_commit_readInt_42_witness :
    (4:Nat) < 8 ∧
    (∃ b1 b2 b3,
      writeInt (some (clear ⟨8, 1, 2, 3, true, [9, 9, 9, 9, 9, 9, 9, 9]⟩)) 42 =
        (true, some b1) ∧
      commitWrite (some b1) = (true, some b2) ∧
      readInt (some b2) = (42, some b3) ∧
      b3.head = b3.tail) :=
  ⟨by decide,
   writeInt_commit_readInt_42 ⟨8, 1, 2, 3, true, [9, 9, 9, 9, 9, 9, 9, 9]⟩
     (by decide)⟩

/-! Cursor-invariant preservation lemmas for the primitives, and the
identities tying each typed reader's state evolution to its `tryRead`. -/

theorem clearOp_cursorInv (fb : Option HeapBuffer) (h : CursorInvO fb) :
    CursorInvO (clearOp fb) := by
  match fb with
  | none => exact trivial
  | some b =>
    obtain ⟨h1, _, _⟩ := h
    simp only [clearOp, clear, CursorInvO, CursorInv]
    omega

theorem commitWrite_cursorInv (fb : Option HeapBuffer) (h : CursorInvO fb) :
    CursorInvO (commitWrite fb).2 := by
  match fb with
  | none => exact trivial
  | some b =>
    obtain ⟨h1, h2, h3⟩ := h
    simp only [commitWrite]
    split_ifs <;> simp only [CursorInvO, CursorInv] <;> exact ⟨by omega, by omega, by omega⟩

theorem tryRead_cursorInv (fb : Option HeapBuffer) (nn : Bool) (n : Nat)
    (h : CursorInvO fb) : CursorInvO (tryRead fb nn n).2 := by
  match fb with
  | none => exact trivial
  | some b =>
    obtain ⟨h1, h2, h3⟩ := h
    simp only [tryRead]
    split_ifs <;> simp only [CursorInvO, CursorInv] <;>
      exact ⟨by omega, by omega, by omega⟩

theorem tryWrite_cursorInv (fb : Option HeapBuffer) (d : Option (List Nat))
    (h : CursorInvO fb) : CursorInvO (tryWrite fb d).2 := by
  match fb with
  | none => exact trivial
  | some b =>
    match d with
    | none => exact h
    | some l =>
      obtain ⟨h1, h2, h3⟩ := h
      simp only [tryWrite]
      split_ifs <;> simp only [CursorInvO, CursorInv] <;>
        exact ⟨by omega, by omega, by omega⟩

theorem readBool_snd (fb : Option HeapBuffer) :
    (readBool fb).2 = (tryRead fb true 1).2 := by
  rw [readBool]
  rcases tryRead fb true 1 with ⟨_ | _, _⟩ <;> rfl

theorem readByte_snd (fb : Option HeapBuffer) :
    (readByte fb).2 = (tryRead fb true 1).2 := by
  rw [readByte]
  rcases tryRead fb true 1 with ⟨_ | _, _⟩ <;> rfl

theorem readUByte_snd (fb : Option HeapBuffer) :
    (readUByte fb).2 = (tryRead fb true 1).2 := by
  rw [readUByte]
  rcases tryRead fb true 1 with ⟨_ | _, _⟩
  · rfl
  · simp only []
    split_ifs <;> rfl

theorem readShort_snd (fb : Option HeapBuffer) :
    (readShort fb).2 = (tryRead fb true 2).2 := by
  rw [readShort]
  rcases tryRead fb true 2 with ⟨_ | _, _⟩ <;> rfl

theorem readUShort_snd (fb : Option HeapBuffer) :
    (readUShort fb).2 = (tryRead fb true 2).2 := by
  rw [readUShort]
  rcases tryRead fb true 2 with ⟨_ | _, _⟩
  · rfl
  · simp only []
    split_ifs <;> rfl

theorem readInt_snd (fb : Option HeapBuffer) :
    (readInt fb).2 = (tryRead fb true 4).2 := by
  rw [readInt]
  rcases tryRead fb true 4 with ⟨_ | _, _⟩ <;> rfl

theorem readUInt_snd (fb : Option HeapBuffer) :
    (readUInt fb).2 = (tryRead fb true 4).2 := by
  rw [readUInt]
  rcases tryRead fb true 4 with ⟨_ | _, _⟩
  · rfl
  · simp only []
    split_ifs <;> rfl

theorem readLong_snd (fb : Option HeapBuffer) :
    (readLong fb).2 = (tryRead fb true 8).2 := by
  rw [readLong]
  rcases tryRead fb true 8 with ⟨_ | _, _⟩ <;> rfl

theorem readULong_snd (fb : Option HeapBuffer) :
    (readULong fb).2 = (tryRead fb true 8).2 := by
  rw [readULong]
  rcases tryRead fb true 8 with ⟨_ | _, _⟩
  · rfl
  · simp only []
    split_ifs <;> rfl

theorem readFloat_snd (fb : Option HeapBuffer) :
    (readFloat fb).2 = (tryRead fb true 4).2 := by
  rw [readFloat]
  rcases tryRead fb true 4 with ⟨_ | _, _⟩ <;> rfl

theorem readDouble_snd (fb : Option HeapBuffer) :
    (readDouble fb).2 = (tryRead fb true 8).2 := by
  rw [readDouble]
  rcases tryRead fb true 8 with ⟨_ | _, _⟩ <;> rfl

theorem readCustomData_snd (fb : Option HeapBuffer) (n : Nat) :
    (readCustomData fb n).2 = (tryRead fb true n).2 := by
  rw [readCustomData]
  rcases tryRead fb true n with ⟨_ | _, _⟩ <;> rfl

/-- C5: every engine operation — `clear`, `commitWrite`, the primitives
`tryRead`/`tryWrite` at arbitrary arguments, and all typed readers and
writers (which delegate to the primitives) — preserves the cursor invariant
`0 ≤ head, tail, wrtn < capacity`. -/
theorem cursor_inv_preserved (fb : Option HeapBuffer) (hInv : CursorInvO fb) :
    CursorInvO (clearOp fb) ∧
    CursorInvO (commitWrite fb).2 ∧
    (∀ nn n, CursorInvO (tryRead fb nn n).2) ∧
    (∀ d, CursorInvO (tryWrite fb d).2) ∧
    CursorInvO (readBool fb).2 ∧
    CursorInvO (readByte fb).2 ∧
    CursorInvO (readUByte fb).2 ∧
    CursorInvO (readShort fb).2 ∧
    CursorInvO (readUShort fb).2 ∧
    CursorInvO (readInt fb).2 ∧
    CursorInvO (readUInt fb).2 ∧
    CursorInvO (readLong fb).2 ∧
    CursorInvO (readULong fb).2 ∧
    CursorInvO (readFloat fb).2 ∧
    CursorInvO (readDouble fb).2 ∧
    (∀ n, CursorInvO (readCustomData fb n).2) ∧
    (∀ v, CursorInvO (writeBool fb v).2) ∧
    (∀ v, CursorInvO (writeByte fb v).2) ∧
    (∀ v, CursorInvO (writeShort fb v).2) ∧
    (∀ v, CursorInvO (writeInt fb v).2) ∧
    (∀ v, CursorInvO (writeLong fb v).2) ∧
    (∀ v, CursorInvO (writeFloat fb v).2) ∧
    (∀ v, CursorInvO (writeDouble fb v).2) ∧
    (∀ d, CursorInvO (writeCustomData fb d).2) := by
  refine ⟨clearOp_cursorInv fb hInv, commitWrite_cursorInv fb hInv,
    fun nn n => tryRead_cursorInv fb nn n hInv,
    fun d => tryWrite_cursorInv fb d hInv,
    ?_, ?_, ?_, ?_, ?_, ?_, ?_, ?_, ?_, ?_, ?_,
    fun n => ?_,
    fun v => tryWrite_cursorInv fb _ hInv,
    fun v => tryWrite_cursorInv fb _ hInv,
    fun v => tryWrite_cursorInv fb _ hInv,
    fun v => tryWrite_cursorInv fb _ hInv,
    fun v => tryWrite_cursorInv fb _ hInv,
    fun v => tryWrite_cursorInv fb _ hInv,
    fun v => tryWrite_cursorInv fb _ hInv,
    fun d => tryWrite_cursorInv fb d hInv⟩
  · rw [readBool_snd]; exact tryRead_cursorInv fb true 1 hInv
  · rw [readByte_snd]; exact tryRead_cursorInv fb true 1 hInv
  · rw [readUByte_snd]; exact tryRead_cursorInv fb true 1 hInv
  · rw [readShort_snd]; exact tryRead_cursorInv fb true 2 hInv
  · rw [readUShort_snd]; exact tryRead_cursorInv fb true 2 hInv
  · rw [readInt_snd]; exact tryRead_cursorInv fb true 4 hInv
  · rw [readUInt_snd]; exact tryRead_cursorInv fb true 4 hInv
  · rw [readLong_snd]; exact tryRead_cursorInv fb true 8 hInv
  · rw [readULong_snd]; exact tryRead_cursorInv fb true 8 hInv
  · rw [readFloat_snd]; exact tryRead_cursorInv fb true 4 hInv
  · rw [readDouble_snd]; exact tryRead_cursorInv fb true 8 hInv
  · rw [readCustomData_snd]; exact tryRead_cursorInv fb true n hInv

/-- Witness for C5 at a concrete state of capacity 4. -/
theorem cursor_inv_preserved_witness :
    CursorInvO (some ⟨4, 1, 2, 3, false, [0, 0, 0, 0]⟩) ∧
    CursorInvO (clearOp (some ⟨4, 1, 2, 3, false, [0, 0, 0, 0]⟩)) ∧
    CursorInvO (commitWrite (some ⟨4, 1, 2, 3, false, [0, 0, 0, 0]⟩)).2 ∧
    CursorInvO (tryWrite (some ⟨4, 1, 2, 3, false, [0, 0, 0, 0]⟩) (some [7])).2 ∧
    CursorInvO (tryRead (some ⟨4, 1, 2, 3, false, [0, 0, 0, 0]⟩) true 1).2 := by
  have hInvW : CursorInvO (some ⟨4, 1, 2, 3, false, [0, 0, 0, 0]⟩) :=
    ⟨by decide, by decide, by decide⟩
  exact ⟨hInvW, (cursor_inv_preserved _ hInvW).1,
    (cursor_inv_preserved _ hInvW).2.1,
    (cursor_inv_preserved _ hInvW).2.2.2.1 (some [7]),
    (cursor_inv_preserved _ hInvW).2.2.1 true 1⟩

theorem bytesToNatLE_lt (l : List Nat) (h : ∀ x ∈ l, x < 256) :
    bytesToNatLE l < 2 ^ (8 * l.length) := by
  induction l with
  | nil => simp [bytesToNatLE]
  | cons b bs ih =>
    have hb : b < 256 := h b (by simp)
    have ih' := ih (fun x hx => h x (by simp [hx]))
    simp only [bytesToNatLE, List.length_cons]
    have hpow : (2:Nat) ^ (8 * (bs.length + 1)) = 2 ^ (8 * bs.length) * 256 := by
      rw [show 8 * (bs.length + 1) = 8 * bs.length + 8 by ring, pow_add]
      norm_num
    rw [hpow]
    omega

/-- The sign-validation pattern shared by the unsigned readers: reinterpret
only a nonnegative signed value, else substitute 0. -/
theorem unsigned_read_if (w : Nat) (v : Nat) (M : Int) (T : Nat)
    (hT : 2 ^ (8 * w - 1) = T) (hM : M = (T:Int) - 1)
    (h2 : (2:Int) ^ (8 * w) = 2 * (T:Int))
    (hv : v < 2 ^ (8 * w)) (fb' : Option HeapBuffer) :
    (if 0 ≤ toSigned w v ∧ toSigned w v ≤ M then ((toSigned w v).toNat, fb')
     else ((0:Nat), fb')) = ((if v < T then v else 0), fb') := by
  have hv2 : (v:Int) < 2 * (T:Int) := by
    rw [← h2]
    exact_mod_cast hv
  simp only [toSigned, hT, hM, h2]
  by_cases hlt : v < T
  · simp only [if_pos hlt]
    rw [if_pos ⟨by omega, by omega⟩]
    simp
  · simp only [if_neg hlt]
    rw [if_neg (by rintro ⟨hc, -⟩; omega)]

/-- C8: each unsigned scalar read reads the same byte width as the
corresponding signed type; when the underlying `tryRead` fails it returns 0,
and when it succeeds with stored value `v` it returns `v` reinterpreted as
unsigned exactly when `v` lies in `[0, max-signed-of-that-width]`
(`v < 2^(bits-1)`, i.e. the sign bit is clear), else 0. -/
theorem unsigned_reads_validate (fb : Option HeapBuffer) :
    ((readUByte fb).2 = (readByte fb).2 ∧
     (readUShort fb).2 = (readShort fb).2 ∧
     (readUInt fb).2 = (readInt fb).2 ∧
     (readULong fb).2 = (readLong fb).2) ∧
    (∀ fb', tryRead fb true 1 = (none, fb') → readUByte fb = (0, fb')) ∧
    (∀ fb', tryRead fb true 2 = (none, fb') → readUShort fb = (0, fb')) ∧
    (∀ fb', tryRead fb true 4 = (none, fb') → readUInt fb = (0, fb')) ∧
    (∀ fb', tryRead fb true 8 = (none, fb') → readULong fb = (0, fb')) ∧
    (∀ bytes fb', tryRead fb true 1 = (some bytes, fb') → bytes.length = 1 →
      (∀ x ∈ bytes, x < 256) →
      readUByte fb = ((if bytesToNatLE bytes < 2 ^ (8 * 1 - 1)
        then bytesToNatLE bytes else 0), fb')) ∧
    (∀ bytes fb', tryRead fb true 2 = (some bytes, fb') → bytes.length = 2 →
      (∀ x ∈ bytes, x < 256) →
      readUShort fb = ((if bytesToNatLE bytes < 2 ^ (8 * 2 - 1)
        then bytesToNatLE bytes else 0), fb')) ∧
    (∀ bytes fb', tryRead fb true 4 = (some bytes, fb') → bytes.length = 4 →
      (∀ x ∈ bytes, x < 256) →
      readUInt fb = ((if bytesToNatLE bytes < 2 ^ (8 * 4 - 1)
        then bytesToNatLE bytes else 0), fb')) ∧
    (∀ bytes fb', tryRead fb true 8 = (some bytes, fb') → bytes.length = 8 →
      (∀ x ∈ bytes, x < 256) →
      readULong fb = ((if bytesToNatLE bytes < 2 ^ (8 * 8 - 1)
        then bytesToNatLE bytes else 0), fb')) := by
  refine ⟨⟨?_, ?_, ?_, ?_⟩, ?_, ?_, ?_, ?_, ?_, ?_, ?_, ?_⟩
  · rw [readUByte_snd, readByte_snd]
  · rw [readUShort_snd, readShort_snd]
  · rw [readUInt_snd, readInt_snd]
  · rw [readULong_snd, readLong_snd]
  · intro fb' h
    rw [readUByte, h]
  · intro fb' h
    rw [readUShort, h]
  · intro fb' h
    rw [readUInt, h]
  · intro fb' h
    rw [readULong, h]
  · intro bytes fb' h hlen hvalid
    have hv : bytesToNatLE bytes < 2 ^ (8 * 1) := by
      have hx := bytesToNatLE_lt bytes hvalid
      rw [hlen] at hx
      exact hx
    rw [readUByte, h, show (2:Nat) ^ (8 * 1 - 1) = 128 by norm_num]
    exact unsigned_read_if 1 (bytesToNatLE bytes) 127 128 (by norm_num)
      (by norm_num) (by norm_num) hv fb'
  · intro bytes fb' h hlen hvalid
    have hv : bytesToNatLE bytes < 2 ^ (8 * 2) := by
      have hx := bytesToNatLE_lt bytes hvalid
      rw [hlen] at hx
      exact hx
    rw [readUShort, h, show (2:Nat) ^ (8 * 2 - 1) = 32768 by norm_num]
    exact unsigned_read_if 2 (bytesToNatLE bytes) 32767 32768 (by norm_num)
      (by norm_num) (by norm_num) hv fb'
  · intro bytes fb' h hlen hvalid
    have hv : bytesToNatLE bytes < 2 ^ (8 * 4) := by
      have hx := bytesToNatLE_lt bytes hvalid
      rw [hlen] at hx
      exact hx
    rw [readUInt, h, show (2:Nat) ^ (8 * 4 - 1) = 2147483648 by norm_num]
    exact unsigned_read_if 4 (bytesToNatLE bytes) 2147483647 2147483648
      (by norm_num) (by norm_num) (by norm_num) hv fb'
  · intro bytes fb' h hlen hvalid
    have hv : bytesToNatLE bytes < 2 ^ (8 * 8) := by
      have hx := bytesToNatLE_lt bytes hvalid
      rw [hlen] at hx
      exact hx
    rw [readULong, h, show (2:Nat) ^ (8 * 8 - 1) = 9223372036854775808 by norm_num]
    exact unsigned_read_if 8 (bytesToNatLE bytes) 9223372036854775807
      9223372036854775808 (by norm_num) (by norm_num) (by norm_num) hv fb'

/-- Witness for C8: a committed byte 200 (sign bit set) reads back as 0
through `readUByte`, and a committed byte 100 reads back as 100. -/
theorem unsigned_reads_validate_witness :
    (tryRead (some ⟨8, 1, 0, 1, false, [200, 0, 0, 0, 0, 0, 0, 0]⟩) true 1 =
      (some [200], some ⟨8, 1, 1, 1, false, [200, 0, 0, 0, 0, 0, 0, 0]⟩) ∧
     readUByte (some ⟨8, 1, 0, 1, false, [200, 0, 0, 0, 0, 0, 0, 0]⟩) =
      ((if bytesToNatLE [200] < 2 ^ (8 * 1 - 1) then bytesToNatLE [200] else 0),
       some ⟨8, 1, 1, 1, false, [200, 0, 0, 0, 0, 0, 0, 0]⟩)) ∧
    readUByte (some ⟨8, 1, 0, 1, false, [200, 0, 0, 0, 0, 0, 0, 0]⟩) =
      (0, some ⟨8, 1, 1, 1, false, [200, 0, 0, 0, 0, 0, 0, 0]⟩) ∧
    readUByte (some ⟨8, 1, 0, 1, false, [100, 0, 0, 0, 0, 0, 0, 0]⟩) =
      (100, some ⟨8, 1, 1, 1, false, [100, 0, 0, 0, 0, 0, 0, 0]⟩) := by
  refine ⟨⟨by decide, ?_⟩, by decide, by decide⟩
  exact (unsigned_reads_validate
      (some ⟨8, 1, 0, 1, false, [200, 0, 0, 0, 0, 0, 0, 0]⟩)).2.2.2.2.2.1
    [200] (some ⟨8, 1, 1, 1, false, [200, 0, 0, 0, 0, 0, 0, 0]⟩)
    (by decide) (by decide) (by decide)

/-- C2: starting a write group at a clean commit point (`wrtn = head`, flag
clear), if a first write succeeds and a later write fails for insufficient
space, then `commitWrite()` returns failure, the cursors and the flag are
restored exactly to their pre-transaction values, and every subsequent read
returns the same bytes and moves `tail` exactly as it would have on the
pre-transaction state — the reader observes none of the group's data. -/
theorem transaction_rollback (b0 : HeapBuffer) (dA dB : List Nat)
    (hh : b0.head < b0.size) (ht : b0.tail < b0.size)
    (hlen : b0.buf.length = b0.size)
    (hclean : b0.wrtn = b0.head) (hflag : b0.invalidateCommit = false)
    (hA0 : dA.length ≠ 0) (hAfree : dA.length < freeSpace b0)
    (hB0 : dB.length ≠ 0) (hBcap : dB.length < b0.size)
    (hBfull : ¬ dB.length <
      freeSpace { b0 with wrtn := (b0.wrtn + dA.length) % b0.size }) :
    ∃ b1 b2 b3,
      tryWrite (some b0) (some dA) = (true, some b1) ∧
      tryWrite (some b1) (some dB) = (false, some b2) ∧
      b2.invalidateCommit = true ∧
      commitWrite (some b2) = (false, some b3) ∧
      b3.head = b0.head ∧ b3.tail = b0.tail ∧ b3.wrtn = b0.wrtn ∧
      b3.invalidateCommit = b0.invalidateCommit ∧
      (∀ n, (tryRead (some b3) true n).1 = (tryRead (some b0) true n).1 ∧
        ((tryRead (some b3) true n).2.map HeapBuffer.tail) =
          ((tryRead (some b0) true n).2.map HeapBuffer.tail)) := by
  have hw0 : b0.wrtn < b0.size := by omega
  obtain ⟨buf1, heq1, hlen1, hpt1⟩ := tryWrite_ok b0 dA ht hw0 hlen hA0 hAfree
  have heq2 : tryWrite
      (some { b0 with wrtn := (b0.wrtn + dA.length) % b0.size, buf := buf1 })
      (some dB) =
      (false, some { b0 with
        wrtn := (b0.wrtn + dA.length) % b0.size, buf := buf1,
        invalidateCommit := true }) :=
    tryWrite_full _ dB hB0 hBcap hBfull
  have heq3 : commitWrite (some { b0 with
      wrtn := (b0.wrtn + dA.length) % b0.size, buf := buf1,
      invalidateCommit := true }) =
      (false, some { b0 with
        wrtn := b0.head, invalidateCommit := false, buf := buf1 }) := by
    simp [commitWrite]
  refine ⟨_, _, _, heq1, heq2, rfl, heq3, rfl, rfl, hclean.symm, hflag.symm, ?_⟩
  intro n
  by_cases hfail : n = 0 ∨ b0.size ≤ n ∨ b0.head = b0.tail ∨ availData b0 < n
  · have e3 : tryRead (some { b0 with
        wrtn := b0.head, invalidateCommit := false, buf := buf1 }) true n =
        (none, some { b0 with
          wrtn := b0.head, invalidateCommit := false, buf := buf1 }) :=
      tryRead_fail _ true n (by
        rcases hfail with h | h | h | h
        · exact Or.inr (Or.inl h)
        · exact Or.inr (Or.inr (Or.inl h))
        · exact Or.inr (Or.inr (Or.inr (Or.inl h)))
        · exact Or.inr (Or.inr (Or.inr (Or.inr h))))
    have e0 : tryRead (some b0) true n = (none, some b0) :=
      tryRead_fail b0 true n (by
        rcases hfail with h | h | h | h
        · exact Or.inr (Or.inl h)
        · exact Or.inr (Or.inr (Or.inl h))
        · exact Or.inr (Or.inr (Or.inr (Or.inl h)))
        · exact Or.inr (Or.inr (Or.inr (Or.inr h))))
    rw [e3, e0]
    exact ⟨rfl, rfl⟩
  · push_neg at hfail
    obtain ⟨h1, h2, h3, h4⟩ := hfail
    have h4' : n ≤ availData b0 := by omega
    obtain ⟨bytes0, e0, l0, p0⟩ := tryRead_ok b0 n hh ht hlen h1 h3 h4'
    obtain ⟨bytes3, e3, l3, p3⟩ := tryRead_ok
      { b0 with wrtn := b0.head, invalidateCommit := false, buf := buf1 } n
      hh ht hlen1 h1 h3 h4'
    have hbytes : bytes3 = bytes0 := by
      apply List.ext_getElem?
      intro k
      by_cases hk : k < n
      · rw [p3 k hk, p0 k hk]
        show buf1[(b0.tail + k) % b0.size]? = b0.buf[(b0.tail + k) % b0.size]?
        rw [hpt1 ((b0.tail + k) % b0.size)]
        have hdist := dist_unread b0.size b0.head b0.tail dA.length n k hh ht
          (by omega)
          (by
            have hx := hAfree
            unfold freeSpace at hx
            rw [hclean] at hx
            exact hx)
          (by
            have hx := h4'
            unfold availData at hx
            exact hx)
          hk
        rw [if_neg (by
          rintro ⟨hc, -⟩
          rw [hclean] at hc
          exact hdist hc)]
      · rw [List.getElem?_eq_none_iff.mpr (by omega),
          List.getElem?_eq_none_iff.mpr (by omega)]
    rw [e3, e0]
    exact ⟨by rw [hbytes], rfl⟩

/-- Witness for C2: capacity 8, clean start, a 2-byte write followed by a
6-byte write that does not fit; the commit rolls back and a 2-byte read
fails identically on the rolled-back state and on the original state. -/
theorem transaction_rollback_witness :
    (¬ ([9, 9, 9, 9, 9, 9] : List Nat).length <
      freeSpace { (⟨8, 0, 0, 0, false, [0, 0, 0, 0, 0, 0, 0, 0]⟩ : HeapBuffer) with
        wrtn := (0 + ([1, 2] : List Nat).length) % 8 }) ∧
    (∃ b1 b2 b3,
      tryWrite (some ⟨8, 0, 0, 0, false, [0, 0, 0, 0, 0, 0, 0, 0]⟩)
        (some [1, 2]) = (true, some b1) ∧
      tryWrite (some b1) (some [9, 9, 9, 9, 9, 9]) = (false, some b2) ∧
      b2.invalidateCommit = true ∧
      commitWrite (some b2) = (false, some b3) ∧
      b3.head = 0 ∧ b3.tail = 0 ∧ b3.wrtn = 0 ∧
      b3.invalidateCommit = false ∧
      (∀ n, (tryRead (some b3) true n).1 =
          (tryRead (some ⟨8, 0, 0, 0, false, [0, 0, 0, 0, 0, 0, 0, 0]⟩) true n).1 ∧
        ((tryRead (some b3) true n).2.map HeapBuffer.tail) =
          ((tryRead (some ⟨8, 0, 0, 0, false, [0, 0, 0, 0, 0, 0, 0, 0]⟩)
            true n).2.map HeapBuffer.tail))) :=
  ⟨by decide,
   transaction_rollback ⟨8, 0, 0, 0, false, [0, 0, 0, 0, 0, 0, 0, 0]⟩
     [1, 2] [9, 9, 9, 9, 9, 9] (by decide) (by decide) (by decide) rfl rfl
     (by decide) (by decide) (by decide) (by decide) (by decide)⟩

end Carla
